import Mathlib

/-!
Shallow embedding of the Lumina dictionary resolution engine
(src/src-tauri/src/db.rs and src/src-tauri/src/commands/dictionary.rs).

The SQLite database behind a language store is modelled as a `Store` of
row lists; a table that may be absent (causing every prepared statement
against it to fail) is an `Option` of its row list.  SQL queries without
an ORDER BY return rows in storage (list) order; `LIMIT 1` takes the
head.  String equality in SQL (`=`, BINARY collation) is plain string
equality; `LIKE` is the SQLite operator, case-insensitive on ASCII only.
-/

namespace Lumina

/-- Rust `char`-wise lowercasing as used by `str::to_lowercase` in
`normalize_word` and on directory names, modelled on the character set
this program manipulates: ASCII letters plus the German uppercase
umlauts and the capital sharp s. -/
def rust_char_to_lower (c : Char) : Char :=
  if 'A' ≤ c ∧ c ≤ 'Z' then Char.ofNat (c.toNat + 32)
  else if c = 'Ä' then 'ä'
  else if c = 'Ö' then 'ö'
  else if c = 'Ü' then 'ü'
  else if c = 'ẞ' then 'ß'
  else c

/-- Rust `str::to_lowercase` on the modelled character set. -/
def rust_to_lowercase (s : String) : String :=
  ⟨s.data.map rust_char_to_lower⟩

/-- The replacement table of `normalize_word` (db.rs:214-225).  Every
pattern is a single character; the replacement is a character string. -/
def normalize_replacements : List (Char × List Char) :=
  [ ('ä', ['a', 'e']), ('Ä', ['A', 'e']),
    ('ö', ['o', 'e']), ('Ö', ['O', 'e']),
    ('ü', ['u', 'e']), ('Ü', ['U', 'e']),
    ('ß', ['s', 's']), ('ẞ', ['S', 's']),
    ('-', []), ('/', []) ]

/-- One `String::replace` pass for a single-character pattern. -/
def replace_char (c : Char) (dst : List Char) (s : List Char) : List Char :=
  s.flatMap (fun x => if x = c then dst else [x])

/-- `normalize_word` (db.rs:211-232): apply the replacement table in
order, then lowercase.  (No replacement output contains a later
pattern, so the sequential `replace` calls act independently.) -/
def normalize_word (w : String) : String :=
  let replaced :=
    normalize_replacements.foldl (fun s p => replace_char p.1 p.2 s) w.data
  ⟨replaced.map rust_char_to_lower⟩

/-- SQLite case folding for `LIKE`: ASCII uppercase letters fold to
lowercase, all other characters are compared verbatim. -/
def like_fold (c : Char) : Char :=
  if 'A' ≤ c ∧ c ≤ 'Z' then Char.ofNat (c.toNat + 32) else c

/-- The SQLite `LIKE` pattern matcher: `%` matches any character
sequence (any suffix may continue the match), `_` matches exactly one
character, everything else matches case-insensitively on ASCII. -/
def like_match : List Char → List Char → Bool
  | [], s => s.isEmpty
  | p :: ps, s =>
    if p = '%' then s.tails.any (fun t => like_match ps t)
    else if p = '_' then
      match s with
      | [] => false
      | _ :: cs => like_match ps cs
    else
      match s with
      | [] => false
      | c :: cs => (like_fold p == like_fold c) && like_match ps cs

/-- `x LIKE pat` on strings. -/
def sql_like (pat s : String) : Bool := like_match pat.data s.data

/-- A row of the `dictionary` table, with the columns the engine reads. -/
structure DictRow where
  id : Int
  word : String
  normalized_word : Option String
  lang : String
  lang_code : String
  pos : Option String
  etymology_text : Option String
  pronunciation : Option String
  deriving Repr, DecidableEq

/-- A row of the `senses` table. -/
structure SenseRow where
  dictionary_id : Int
  gloss : String
  deriving Repr, DecidableEq

/-- A row of the `forms` table. -/
structure FormRow where
  dictionary_id : Int
  form : String
  normalized_form : Option String
  tags : Option String
  deriving Repr, DecidableEq

/-- An open SQLite store.  `none` for a table means the table is
missing, so every statement against it fails to prepare or execute. -/
structure Store where
  dictionary : Option (List DictRow)
  senses : Option (List SenseRow)
  forms : Option (List FormRow)
  deriving Repr, DecidableEq

/-- `Inflection` (db.rs:20-25). -/
structure Inflection where
  form : String
  tags : Option String
  normalized_form : Option String
  deriving Repr, DecidableEq

/-- `DictionaryEntry` (db.rs:5-18).  `details` is an opaque JSON value
in the source, never populated by the lookup path; it is modelled as an
always-`none` `Option String`. -/
structure DictionaryEntry where
  entry_id : Option String
  text : String
  language : String
  translation : Option String
  root_form : Option String
  grammar : Option String
  definition : Option String
  details : Option String
  link_part : Option String
  inflections : Option (List Inflection)
  etymology : Option String
  deriving Repr, DecidableEq

/-- `DictionaryStats` (db.rs:27-34). -/
structure DictionaryStats where
  word_count : Int
  sense_count : Int
  form_count : Int
  synonym_count : Int
  deriving Repr, DecidableEq

/-- `LanguageInfo` (db.rs:36-46). -/
structure LanguageInfo where
  code : String
  name : String
  has_local : Bool
  word_count : Int
  sense_count : Int
  form_count : Int
  path : Option String
  deriving Repr, DecidableEq

/-- One subdirectory of the dictionaries root: its on-disk name and its
files in enumeration order, each file carrying the store obtained by
opening it (a non-database file opens to a store with no tables). -/
structure DirEntry where
  name : String
  files : List (String × Store)
  deriving Repr, DecidableEq

/-- The filesystem as the registry sees it: whether the resolved
dictionaries root exists, and its subdirectories in enumeration order
(plain files at the root level are skipped by the scan and not
modelled). -/
structure FS where
  root_exists : Bool
  dirs : List DirEntry
  deriving Repr, DecidableEq

/-- The static language-name/code table (db.rs:138-151 and 537-550). -/
def name_to_code : List (String × String) :=
  [ ("german", "de"), ("sanskrit", "sa"), ("english", "en"),
    ("french", "fr"), ("spanish", "es"), ("italian", "it"),
    ("portuguese", "pt"), ("russian", "ru"), ("chinese", "zh"),
    ("japanese", "ja"), ("korean", "ko"), ("arabic", "ar") ]

namespace Db

/-- Directory-name match in `get_connection` (db.rs:166-170):
`dir_name` is already lowercased. -/
def dir_matches (dir_name lang_code : String) : Bool :=
  dir_name == lang_code ||
    name_to_code.any (fun p =>
      (dir_name == p.1 && lang_code == p.2) ||
      (dir_name == p.2 && lang_code == p.2))

/-- The accepted file names in `get_connection` (db.rs:174-178). -/
def conn_patterns (lang_code dir_name : String) : List String :=
  [lang_code ++ "_dict.db", "dictionary.db", dir_name ++ "_dict.db"]

/-- The inner file loop of `get_connection` (db.rs:180-191): the first
file in enumeration order whose name equals any accepted pattern. -/
def find_file_in_dir (files : List (String × Store)) (pats : List String) :
    Option Store :=
  (files.find? (fun f => pats.any (fun p => p == f.1))).map (fun f => f.2)

/-- The directory loop of `get_connection` (db.rs:155-198): scan
subdirectories in order; in a matching directory take the first file
matching any pattern; stop at the first hit, otherwise keep scanning. -/
def find_db : List DirEntry → String → Option Store
  | [], _ => none
  | d :: rest, lang_code =>
    let dir_name := rust_to_lowercase d.name
    if dir_matches dir_name lang_code then
      match find_file_in_dir d.files (conn_patterns lang_code dir_name) with
      | some st => some st
      | none => find_db rest lang_code
    else find_db rest lang_code

/-- `get_connection` (db.rs:122-209).  Opening the found file is
modelled as always succeeding (SQLite opens lazily); a missing root or
no matching file is the error path. -/
def get_connection (fs : FS) (lang_code : String) : Except String Store :=
  if !fs.root_exists then
    .error "Dictionary directory not found"
  else
    match find_db fs.dirs lang_code with
    | some st => .ok st
    | none => .error ("Dictionary not found for language " ++ lang_code)

/-- `SELECT id FROM dictionary WHERE word = ?1 LIMIT 1` (db.rs:325-331).
`none` when the table is missing or no row matches. -/
def query_headword_exact (st : Store) (w : String) : Option Int :=
  st.dictionary.bind fun rows =>
    (rows.find? (fun r => r.word == w)).map (fun r => r.id)

/-- `SELECT id FROM dictionary WHERE normalized_word = ?1 LIMIT 1`
(db.rs:334-342); a NULL `normalized_word` never matches. -/
def query_headword_norm (st : Store) (normalized : String) : Option Int :=
  st.dictionary.bind fun rows =>
    (rows.find? (fun r => r.normalized_word == some normalized)).map
      (fun r => r.id)

/-- The tag filter `tags IS NULL OR tags NOT LIKE '%error%'` of the two
forms queries (db.rs:353, 370). -/
def form_tags_ok : Option String → Bool
  | none => true
  | some t => !sql_like "%error%" t

/-- `SELECT dictionary_id, tags FROM forms WHERE form = ?1 AND (tags IS
NULL OR tags NOT LIKE '%error%') LIMIT 1` (db.rs:351-364). -/
def query_form_exact (st : Store) (w : String) :
    Option (Int × Option String) :=
  st.forms.bind fun rows =>
    (rows.find? (fun r => r.form == w && form_tags_ok r.tags)).map
      (fun r => (r.dictionary_id, r.tags))

/-- The same query against `normalized_form` (db.rs:367-382); a NULL
`normalized_form` never matches. -/
def query_form_norm (st : Store) (normalized : String) :
    Option (Int × Option String) :=
  st.forms.bind fun rows =>
    (rows.find? (fun r =>
      r.normalized_form == some normalized && form_tags_ok r.tags)).map
      (fun r => (r.dictionary_id, r.tags))

/-- Step 1 of `search_dictionary` (db.rs:322-342): exact headword match,
then normalized headword match. -/
def headword_lookup (st : Store) (w : String) : Option Int :=
  match query_headword_exact st w with
  | some id => some id
  | none => query_headword_norm st (normalize_word w)

/-- Step 2 of `search_dictionary` (db.rs:349-382): exact form match,
then normalized form match, both excluding error-tagged rows. -/
def forms_lookup (st : Store) (w normalized : String) :
    Option (Int × Option String) :=
  match query_form_exact st w with
  | some r => some r
  | none => query_form_norm st normalized

/-- `GROUP_CONCAT(s.gloss, ' | ')` over the senses of one entry
(db.rs:395): NULL when there is no sense row. -/
def group_concat_glosses (glosses : List String) : Option String :=
  if glosses.isEmpty then none else some (String.intercalate " | " glosses)

/-- The deduplication loop of `search_dictionary` (db.rs:459-464):
first-seen surface text wins. -/
def dedup_by_text : List DictionaryEntry → List String → List DictionaryEntry
  | [], _ => []
  | e :: rest, seen =>
    if seen.contains e.text then dedup_by_text rest seen
    else e :: dedup_by_text rest (e.text :: seen)

/-- The final fetch of `search_dictionary` (db.rs:391-465): select the
dictionary rows with the resolved id, build one entry per row (the
senses subquery must prepare, so both tables must exist), attach an
inflection record when the path went through the forms table and the
headword text differs from the query word, and deduplicate by text.
The `ipa` value computed from the `sounds` table (db.rs:408-425) is
never stored in the entry and is omitted. -/
def fetch_entry (st : Store) (entry_id : Int) (word : String)
    (via_forms : Bool) (inflection_tags : List String) :
    Except String (List DictionaryEntry) :=
  match st.dictionary, st.senses with
  | some drows, some srows =>
    let entries := (drows.filter (fun r => r.id == entry_id)).map fun r =>
      { entry_id := some (toString entry_id)
        text := r.word
        language := r.lang
        translation := none
        root_form := r.normalized_word
        grammar := r.pos
        definition := group_concat_glosses
          ((srows.filter (fun s => s.dictionary_id == r.id)).map
            (fun s => s.gloss))
        details := none
        link_part := none
        inflections :=
          if via_forms && r.word != word then
            some [{ form := word
                    tags := if inflection_tags.isEmpty then none
                            else some (String.intercalate "; " inflection_tags)
                    normalized_form := none }]
          else none
        etymology := r.etymology_text : DictionaryEntry }
    .ok (dedup_by_text entries [])
  | _, _ => .error "no such table"

/-- The body of `search_dictionary` after the connection is open
(db.rs:318-467). -/
def search_conn (st : Store) (word : String) :
    Except String (List DictionaryEntry) :=
  let normalized := normalize_word word
  let hw := headword_lookup st word
  let forms_res : Option (Int × Option String) :=
    match hw with
    | some _ => none
    | none => forms_lookup st word normalized
  let root_entry_id := forms_res.map (fun r => r.1)
  let inflection_tags : List String :=
    match forms_res with
    | some (_, some t) => [t]
    | _ => []
  let dictionary_id : Option Int :=
    match hw with
    | some id => some id
    | none => root_entry_id
  match dictionary_id with
  | none => .ok []
  | some entry_id =>
    fetch_entry st entry_id word root_entry_id.isSome inflection_tags

/-- `search_dictionary` (db.rs:316-468). -/
def search_dictionary (fs : FS) (word lang_code : String) :
    Except String (List DictionaryEntry) := do
  let conn ← get_connection fs lang_code
  search_conn conn word

/-- Duplicate-free word list for `COUNT(DISTINCT word)`. -/
def distinct_words (rows : List DictRow) : List String :=
  (rows.map (fun r => r.word)).dedup

/-- `get_language_stats` (db.rs:496-520): each count query defaults to
zero when it fails (`unwrap_or(0)`), here when its table is missing. -/
def get_language_stats (fs : FS) (lang_code : String) :
    Except String DictionaryStats := do
  let conn ← get_connection fs lang_code
  .ok { word_count :=
          match conn.dictionary with
          | some rows => Int.ofNat (distinct_words rows).length
          | none => 0
        sense_count :=
          match conn.senses with
          | some rows => Int.ofNat rows.length
          | none => 0
        form_count :=
          match conn.forms with
          | some rows => Int.ofNat rows.length
          | none => 0
        synonym_count := 0 }

/-- The accepted file names probed in order by
`get_available_languages` (db.rs:578). -/
def avail_patterns (code : String) : List String :=
  [code ++ "_dict.db", code ++ "_dict.sqlite", "dict.db", "dict.sqlite"]

/-- The file probe of `get_available_languages` (db.rs:581-591):
patterns are tried in order and the first whose file exists wins. -/
def select_db_file (code : String) (files : List (String × Store)) :
    Option String :=
  (avail_patterns code).find? (fun pat => files.any (fun f => f.1 == pat))

/-- Name/code resolution of `get_available_languages` (db.rs:569-573):
an unmatched directory name is used verbatim as code and name. -/
def resolve_code_name (dir_name : String) : String × String :=
  match name_to_code.find? (fun p => dir_name == p.1 || dir_name == p.2) with
  | some p => (p.2, p.1)
  | none => (dir_name, dir_name)

/-- The directory loop of `get_available_languages` (db.rs:553-634):
a directory with no recognized database file contributes nothing, as
does one whose language fails to reopen through `get_connection`. -/
def avail_langs_aux (fs : FS) : List DirEntry → List LanguageInfo
  | [] => []
  | d :: rest =>
    let dir_name := rust_to_lowercase d.name
    let cn := resolve_code_name dir_name
    match select_db_file cn.1 d.files with
    | none => avail_langs_aux fs rest
    | some file_name =>
      match get_connection fs cn.1 with
      | .error _ => avail_langs_aux fs rest
      | .ok conn =>
        { code := cn.1
          name := cn.2
          has_local := true
          word_count :=
            match conn.dictionary with
            | some rows => Int.ofNat (distinct_words rows).length
            | none => 0
          sense_count :=
            match conn.senses with
            | some rows => Int.ofNat rows.length
            | none => 0
          form_count :=
            match conn.forms with
            | some rows => Int.ofNat rows.length
            | none => 0
          path := some (d.name ++ "/" ++ file_name) : LanguageInfo }
          :: avail_langs_aux fs rest

/-- `get_available_languages` (db.rs:522-649): a missing root directory
yields an empty list, not an error. -/
def get_available_languages (fs : FS) : Except String (List LanguageInfo) :=
  if !fs.root_exists then .ok []
  else .ok (avail_langs_aux fs fs.dirs)

/-- Byte-wise (BINARY collation) string comparison on UTF-8, which
coincides with code-point lexicographic comparison. -/
def char_list_le : List Char → List Char → Bool
  | [], _ => true
  | _ :: _, [] => false
  | a :: as, b :: bs => if a = b then char_list_le as bs else decide (a < b)

/-- `ORDER BY word` comparison on the projected `(word, pos)` rows. -/
def word_le (a b : String × Option String) : Bool :=
  char_list_le a.1.data b.1.data

/-- Insert into a sorted list, keeping earlier elements first on ties. -/
def insert_sorted (le : α → α → Bool) (x : α) : List α → List α
  | [] => [x]
  | y :: ys => if le x y then x :: y :: ys else y :: insert_sorted le x ys

/-- Stable insertion sort. -/
def sort_by (le : α → α → Bool) : List α → List α
  | [] => []
  | x :: xs => insert_sorted le x (sort_by le xs)

/-- The query of `search_suggestions` against an open store:
`SELECT DISTINCT word, pos FROM dictionary WHERE word LIKE ?1 ORDER BY
word LIMIT ?2` with the pattern `prefix ++ "%"`.  SQL leaves the
relative order of rows with equal `word` unspecified; dedup followed by
a stable sort is the deterministic refinement used here. -/
def search_suggestions_conn (conn : Store) (pre : String) (limit : Nat) :
    Except String (List (String × Option String)) :=
  match conn.dictionary with
  | none => .error "no such table"
  | some rows =>
    .ok ((sort_by word_le
      (((rows.filter (fun r => sql_like (pre ++ "%") r.word)).map
        (fun r => (r.word, r.pos))).dedup)).take limit)

/-- `search_suggestions` (db.rs:651-676). -/
def search_suggestions (fs : FS) (pre lang_code : String) (limit : Nat) :
    Except String (List (String × Option String)) := do
  let conn ← get_connection fs lang_code
  search_suggestions_conn conn pre limit

end Db

namespace Commands

/-- The Unicode White_Space code points recognized by Rust
`char::is_whitespace`, which `str::trim` strips. -/
def rust_is_whitespace (c : Char) : Bool :=
  c.toNat ∈ ([0x9, 0xA, 0xB, 0xC, 0xD, 0x20, 0x85, 0xA0, 0x1680,
    0x2000, 0x2001, 0x2002, 0x2003, 0x2004, 0x2005, 0x2006, 0x2007,
    0x2008, 0x2009, 0x200A, 0x2028, 0x2029, 0x202F, 0x205F, 0x3000] :
    List Nat)

/-- Rust `str::trim`. -/
def rust_trim (s : String) : List Char :=
  ((s.data.dropWhile rust_is_whitespace).reverse.dropWhile
    rust_is_whitespace).reverse

/-- `SearchResult` (commands/dictionary.rs:8-15). -/
structure SearchResult where
  success : Bool
  entries : List DictionaryEntry
  source : String
  query : String
  language : String
  deriving Repr, DecidableEq

/-- The `search_dictionary` command (commands/dictionary.rs:17-60).
The Rust function always returns `Ok`, so it is modelled as a plain
value. -/
def search_dictionary (fs : FS) (word language : String) : SearchResult :=
  if (rust_trim word).isEmpty then
    { success := true, entries := [], source := "local",
      query := word, language := language }
  else if language == "sa" then
    { success := true, entries := [], source := "sanskrit-only",
      query := word, language := language }
  else
    match Db.search_dictionary fs word language with
    | .ok entries =>
      { success := true, entries := entries, source := "local",
        query := word, language := language }
    | .error _ =>
      { success := false, entries := [], source := "error",
        query := word, language := language }

/-- `StatsResult` (commands/dictionary.rs:62-67). -/
structure StatsResult where
  success : Bool
  stats : Option DictionaryStats
  error : Option String
  deriving Repr, DecidableEq

/-- The `get_dictionary_stats` command (commands/dictionary.rs:69-83):
a stats failure is wrapped, never propagated as `Err`. -/
def get_dictionary_stats (fs : FS) (language : String) : StatsResult :=
  match Db.get_language_stats fs language with
  | .ok s => { success := true, stats := some s, error := none }
  | .error e => { success := false, stats := none, error := some e }

/-- `Suggestion` (commands/dictionary.rs:116-120). -/
structure Suggestion where
  word : String
  pos : Option String
  deriving Repr, DecidableEq

/-- `SuggestResult` (commands/dictionary.rs:122-126). -/
structure SuggestResult where
  suggestions : List Suggestion
  source : String
  deriving Repr, DecidableEq

/-- The `get_dictionary_suggestions` command
(commands/dictionary.rs:128-140): fixed limit 10, errors degrade to an
empty list. -/
def get_dictionary_suggestions (fs : FS) (pre language : String) :
    SuggestResult :=
  match Db.search_suggestions fs pre language 10 with
  | .ok results =>
    { suggestions := results.map (fun r => { word := r.1, pos := r.2 }),
      source := "local" }
  | .error _ => { suggestions := [], source := "error" }

/-- `BatchQueryResult` (commands/dictionary.rs:142-148); the unordered
`HashMap` is modelled as an association list with replace-on-insert. -/
structure BatchQueryResult where
  success : Bool
  results : List (String × List DictionaryEntry)
  found : Nat
  total : Nat
  deriving Repr, DecidableEq

/-- `HashMap::insert`: replace any existing binding for the key. -/
def map_insert (m : List (String × List DictionaryEntry)) (k : String)
    (v : List DictionaryEntry) : List (String × List DictionaryEntry) :=
  (k, v) :: m.filter (fun p => p.1 ≠ k)

/-- The `batch_query_dictionary` command
(commands/dictionary.rs:150-185). -/
def batch_query_dictionary (fs : FS) (words : List String)
    (language : String) : BatchQueryResult :=
  if language == "sa" then
    { success := true, results := [], found := 0, total := words.length }
  else
    let acc := words.foldl
      (fun (acc : List (String × List DictionaryEntry) × Nat) word =>
        match Db.search_dictionary fs word language with
        | .ok entries =>
          if entries.isEmpty then acc
          else (map_insert acc.1 word entries, acc.2 + 1)
        | .error _ => acc)
      ([], 0)
    { success := true, results := acc.1, found := acc.2,
      total := words.length }

end Commands

/-- Decidable equality on `Except`, for evaluating results of the
fallible operations on concrete inputs. -/
def except_dec_eq {ε α : Type} [DecidableEq ε] [DecidableEq α] :
    DecidableEq (Except ε α) := fun a b =>
  match a, b with
  | .ok x, .ok y =>
    if h : x = y then .isTrue (by rw [h])
    else .isFalse (fun hh => h (Except.ok.inj hh))
  | .error e, .error f =>
    if h : e = f then .isTrue (by rw [h])
    else .isFalse (fun hh => h (Except.error.inj hh))
  | .ok _, .error _ => .isFalse (fun hh => Except.noConfusion hh)
  | .error _, .ok _ => .isFalse (fun hh => Except.noConfusion hh)

instance {ε α : Type} [DecidableEq ε] [DecidableEq α] :
    DecidableEq (Except ε α) := except_dec_eq

/-! Concrete stores and filesystems used to evaluate the operations on
closed inputs. -/

/-- A `dictionary` row with the fixed fields the examples share. -/
def sample_row (i : Int) (w : String) (n : Option String)
    (pos : Option String) : DictRow :=
  { id := i, word := w, normalized_word := n, lang := "German",
    lang_code := "de", pos := pos, etymology_text := none,
    pronunciation := none }

/-- A store holding the headword `lauf`, the headword `laufen`, and an
inflected form `lauf` owned by `laufen`, plus the form `lief` owned by
`laufen`. -/
def st_lauf : Store :=
  { dictionary := some [sample_row 1 "lauf" (some "lauf") (some "noun"),
      sample_row 2 "laufen" (some "laufen") (some "verb")],
    senses := some [⟨1, "run"⟩, ⟨2, "to run"⟩],
    forms := some [⟨2, "lauf", some "lauf", some "imp"⟩,
      ⟨2, "lief", some "lief", some "past"⟩] }

/-- A filesystem exposing `st_lauf` as the German store. -/
def fs_lauf : FS :=
  { root_exists := true,
    dirs := [{ name := "german", files := [("de_dict.db", st_lauf)] }] }

/-- The entry `search_conn st_lauf "lauf"` resolves to. -/
def lauf_entry : DictionaryEntry :=
  { entry_id := some "1", text := "lauf", language := "German",
    translation := none, root_form := some "lauf", grammar := some "noun",
    definition := some "run", details := none, link_part := none,
    inflections := none, etymology := none }

/-- The entry `search_conn st_lauf "lief"` resolves to. -/
def lief_entry : DictionaryEntry :=
  { entry_id := some "2", text := "laufen", language := "German",
    translation := none, root_form := some "laufen",
    grammar := some "verb", definition := some "to run", details := none,
    link_part := none,
    inflections := some [⟨"lief", some "past", none⟩],
    etymology := none }

/-- A store whose only headword is `Haus`, normalized `haus`. -/
def st_haus : Store :=
  { dictionary := some [sample_row 1 "Haus" (some "haus") (some "noun")],
    senses := some [⟨1, "house"⟩],
    forms := some [] }

/-- The entry `search_conn st_haus "haus"` resolves to. -/
def haus_entry : DictionaryEntry :=
  { entry_id := some "1", text := "Haus", language := "German",
    translation := none, root_form := some "haus", grammar := some "noun",
    definition := some "house", details := none, link_part := none,
    inflections := none, etymology := none }

/-- An existing but empty dictionaries root. -/
def fs_empty : FS := { root_exists := true, dirs := [] }

/-- A missing dictionaries root. -/
def fs_noroot : FS := { root_exists := false, dirs := [] }

/-- A language directory holding no database file at all. -/
def dir_nodb : DirEntry := { name := "french", files := [] }

/-- A store for the suggestion queries: `Ab` and `ab` differ only by
case, and `ab` occurs with two parts of speech. -/
def st_sugg : Store :=
  { dictionary := some [sample_row 1 "Ab" none (some "noun"),
      sample_row 2 "ab" none (some "noun"),
      sample_row 3 "ab" none (some "verb")],
    senses := some [], forms := some [] }

/-- A filesystem exposing `st_sugg` as the German store. -/
def fs_sugg : FS :=
  { root_exists := true,
    dirs := [{ name := "de", files := [("de_dict.db", st_sugg)] }] }

/-- The rows `search_suggestions fs_sugg "a" "de" 10` produces. -/
def sugg_result : List (String × Option String) :=
  [("Ab", some "noun"), ("ab", some "noun"), ("ab", some "verb")]

/-- The store behind the generically named `dictionary.db` file. -/
def st_generic : Store :=
  { dictionary := some [], senses := none, forms := none }

/-- The store behind the code-prefixed `de_dict.db` file. -/
def st_coded : Store :=
  { dictionary := some [sample_row 9 "x" none none],
    senses := none, forms := none }

/-- A language directory enumerating the generically named store file
before the code-prefixed one. -/
def dir_two_files : DirEntry :=
  { name := "de",
    files := [("dictionary.db", st_generic), ("de_dict.db", st_coded)] }

/-- A filesystem containing `dir_two_files`. -/
def fs_two_files : FS := { root_exists := true, dirs := [dir_two_files] }

/-- A store whose only row matching `xlief` in the forms table carries
an error tag, and whose headword table does not contain `xlief`. -/
def st_errtag : Store :=
  { dictionary := some [sample_row 2 "laufen" (some "laufen") (some "verb")],
    senses := some [],
    forms := some [⟨2, "xlief", some "xlief", some "error-tag"⟩] }

end Lumina

namespace Lumina

/-! Helper lemmas. -/

theorem replace_char_of_not_mem {p : Char} {s : List Char}
    (h : ∀ c ∈ s, c ≠ p) (d : List Char) : replace_char p d s = s := by
  induction s with
  | nil => rfl
  | cons c cs ih =>
    have hc : c ≠ p := h c (List.mem_cons_self c cs)
    simp only [replace_char, List.flatMap_cons, if_neg hc]
    have := ih (fun x hx => h x (List.mem_cons_of_mem c hx))
    simp only [replace_char] at this
    simp [this]

theorem map_eq_self_of {f : α → α} {l : List α} (h : ∀ c ∈ l, f c = c) :
    l.map f = l := by
  induction l with
  | nil => rfl
  | cons c cs ih => simp_all

theorem mem_dedup_by_text {e : DictionaryEntry}
    {l : List DictionaryEntry} {seen : List String}
    (h : e ∈ Db.dedup_by_text l seen) : e ∈ l := by
  induction l generalizing seen with
  | nil => simp [Db.dedup_by_text] at h
  | cons x xs ih =>
    simp only [Db.dedup_by_text] at h
    by_cases hc : seen.contains x.text = true
    · rw [if_pos hc] at h
      exact List.mem_cons_of_mem x (ih h)
    · rw [if_neg hc] at h
      rcases List.mem_cons.mp h with h | h
      · exact h ▸ List.mem_cons_self x xs
      · exact List.mem_cons_of_mem x (ih h)

/-- Characters of a plain-ASCII word are left alone by the lowercase
map when they are not ASCII uppercase letters. -/
theorem rust_char_to_lower_eq_self {c : Char} (hlt : c.toNat < 128)
    (hup : ¬(('A' : Char) ≤ c ∧ c ≤ 'Z')) : rust_char_to_lower c = c := by
  unfold rust_char_to_lower
  rw [if_neg hup, if_neg, if_neg, if_neg, if_neg]
  · intro hc; subst hc; exact absurd hlt (by decide)
  · intro hc; subst hc; exact absurd hlt (by decide)
  · intro hc; subst hc; exact absurd hlt (by decide)
  · intro hc; subst hc; exact absurd hlt (by decide)

/-! Claim theorems. -/

/-- C6: `normalize_word` satisfies the fixed vectors
`"" ↦ ""`, `"Müller" ↦ "mueller"`, `"Straße" ↦ "strasse"`,
`"a-b/c" ↦ "abc"` (it is total and deterministic because it is a plain
function), and alters no characters outside the replaced
diacritic/ligature set, the stripped hyphen and slash, and the
lowercased letters: a word of plain characters is returned verbatim. -/
theorem c6_normalize_vectors :
    normalize_word "" = "" ∧
    normalize_word "Müller" = "mueller" ∧
    normalize_word "Straße" = "strasse" ∧
    normalize_word "a-b/c" = "abc" ∧
    ∀ w : String,
      (∀ c ∈ w.data, c.toNat < 128 ∧ ¬(('A' : Char) ≤ c ∧ c ≤ 'Z') ∧
        c ≠ '-' ∧ c ≠ '/') →
      normalize_word w = w := by
  refine ⟨by decide, by decide, by decide, by decide, ?_⟩
  intro w h
  have hne : ∀ p : Char, 128 ≤ p.toNat → ∀ c ∈ w.data, c ≠ p := by
    intro p hp c hc hcp
    subst hcp
    exact absurd (h c hc).1 (by omega)
  unfold normalize_word normalize_replacements
  simp only [List.foldl]
  rw [replace_char_of_not_mem (hne 'ä' (by decide)),
    replace_char_of_not_mem (hne 'Ä' (by decide)),
    replace_char_of_not_mem (hne 'ö' (by decide)),
    replace_char_of_not_mem (hne 'Ö' (by decide)),
    replace_char_of_not_mem (hne 'ü' (by decide)),
    replace_char_of_not_mem (hne 'Ü' (by decide)),
    replace_char_of_not_mem (hne 'ß' (by decide)),
    replace_char_of_not_mem (hne 'ẞ' (by decide)),
    replace_char_of_not_mem (fun c hc => (h c hc).2.2.1),
    replace_char_of_not_mem (fun c hc => (h c hc).2.2.2)]
  have : w.data.map rust_char_to_lower = w.data :=
    map_eq_self_of (fun c hc =>
      rust_char_to_lower_eq_self (h c hc).1 (h c hc).2.1)
  exact congrArg String.mk this

/-- Witness for C6 at the plain word `"abc"`. -/
theorem c6_normalize_vectors_witness : normalize_word "abc" = "abc" :=
  c6_normalize_vectors.2.2.2.2 "abc" (by decide)

/-- C8: a word that is empty or all whitespace resolves, for every
language and every filesystem state, to a successful empty result — in
particular the result does not depend on the filesystem, so no store is
opened and no query runs. -/
theorem c8_empty_word_short_circuit :
    ∀ (fs : FS) (w lang : String),
      (∀ c ∈ w.data, Commands.rust_is_whitespace c = true) →
      Commands.search_dictionary fs w lang =
        { success := true, entries := [], source := "local",
          query := w, language := lang } := by
  intro fs w lang h
  have ht : (Commands.rust_trim w).isEmpty = true := by
    unfold Commands.rust_trim
    rw [List.dropWhile_eq_nil_iff.mpr h]
    rfl
  unfold Commands.search_dictionary
  simp [ht]

/-- Witness for C8 at the whitespace word `" \t"` with a populated
filesystem. -/
theorem c8_empty_word_short_circuit_witness :
    Commands.search_dictionary fs_lauf " \t" "de" =
      { success := true, entries := [], source := "local",
        query := " \t", language := "de" } :=
  c8_empty_word_short_circuit fs_lauf " \t" "de" (by decide)

/-- C9: a missing dictionaries root makes `get_available_languages`
return an empty result successfully, and a language directory in which
no recognized database file is found is silently skipped by the scan
rather than reported as a failure. -/
theorem c9_registry_failure_modes :
    (∀ fs : FS, fs.root_exists = false →
      Db.get_available_languages fs = .ok []) ∧
    (∀ (fs : FS) (d : DirEntry) (rest : List DirEntry),
      Db.select_db_file
        (Db.resolve_code_name (rust_to_lowercase d.name)).1 d.files = none →
      Db.avail_langs_aux fs (d :: rest) = Db.avail_langs_aux fs rest) := by
  constructor
  · intro fs h
    simp [Db.get_available_languages, h]
  · intro fs d rest h
    simp only [Db.avail_langs_aux]
    rw [h]

/-- Witness for C9: a missing root, and a scan over a directory with no
database file. -/
theorem c9_registry_failure_modes_witness :
    Db.get_available_languages fs_noroot = .ok [] ∧
    Db.avail_langs_aux fs_empty [dir_nodb] = Db.avail_langs_aux fs_empty [] :=
  ⟨c9_registry_failure_modes.1 fs_noroot rfl,
   c9_registry_failure_modes.2 fs_empty dir_nodb [] (by decide)⟩

/-- C10: for every word, word list and filesystem state, a lookup with
language code `sa` succeeds with an empty entry list, the single-word
result does not depend on the filesystem (no store path is resolved and
no store is opened), and a batch lookup returns an empty result map
with zero found and the full total. -/
theorem c10_sanskrit_bypass :
    ∀ (fs fs' : FS) (w : String) (words : List String),
      (Commands.search_dictionary fs w "sa").success = true ∧
      (Commands.search_dictionary fs w "sa").entries = [] ∧
      Commands.search_dictionary fs' w "sa" =
        Commands.search_dictionary fs w "sa" ∧
      Commands.batch_query_dictionary fs words "sa" =
        { success := true, results := [], found := 0,
          total := words.length } := by
  intro fs fs' w words
  unfold Commands.search_dictionary Commands.batch_query_dictionary
  by_cases hw : (Commands.rust_trim w).isEmpty <;> simp [hw]

/-- C3 counterexample: for the unregistered language code `xx` the
stats call does not return all-zero counts — it produces an
unsuccessful result carrying no stats at all, because the store cannot
be opened. -/
theorem c3_stats_counterexample :
    (Commands.get_dictionary_stats fs_empty "xx").success = false ∧
    (Commands.get_dictionary_stats fs_empty "xx").stats = none := by
  decide

/-- C3 amended: when the store for a language cannot be opened (for
example an unregistered code), the stats command returns an
unsuccessful wrapped result carrying the error and no counts — not
all-zero counts; once a store is open, each individual count whose
query fails (its table is missing) defaults to zero rather than
failing the call. -/
theorem c3_stats_amended :
    ∀ (fs : FS) (lang : String),
      (∀ e, Db.get_connection fs lang = .error e →
        Commands.get_dictionary_stats fs lang =
          { success := false, stats := none, error := some e }) ∧
      (∀ conn, Db.get_connection fs lang = .ok conn →
        ∃ s, Commands.get_dictionary_stats fs lang =
            { success := true, stats := some s, error := none } ∧
          (conn.dictionary = none → s.word_count = 0) ∧
          (conn.senses = none → s.sense_count = 0) ∧
          (conn.forms = none → s.form_count = 0)) := by
  intro fs lang
  constructor
  · intro e he
    unfold Commands.get_dictionary_stats Db.get_language_stats
    rw [he]
    rfl
  · intro conn hc
    refine ⟨⟨(match conn.dictionary with
        | some rows => Int.ofNat (Db.distinct_words rows).length
        | none => 0),
      (match conn.senses with
        | some rows => Int.ofNat rows.length
        | none => 0),
      (match conn.forms with
        | some rows => Int.ofNat rows.length
        | none => 0), 0⟩, ?_, ?_, ?_, ?_⟩
    · unfold Commands.get_dictionary_stats Db.get_language_stats
      rw [hc]
      rfl
    · intro hd
      simp only [hd]
    · intro hs
      simp only [hs]
    · intro hf
      simp only [hf]

/-- Witness for C3 (amended): the unregistered code `xx` against an
existing empty root. -/
theorem c3_stats_amended_witness :
    Commands.get_dictionary_stats fs_empty "xx" =
      { success := false, stats := none,
        error := some "Dictionary not found for language xx" } :=
  (c3_stats_amended fs_empty "xx").1
    "Dictionary not found for language xx" (by decide)

/-- C5 counterexample: with both a generically named store file and a
code-prefixed one in the language directory, `get_connection` opens the
generically named one because it comes first in directory enumeration
order — the code-prefixed name does not take priority. -/
theorem c5_connection_counterexample :
    Db.get_connection fs_two_files "de" = .ok st_generic ∧
    ("de_dict.db", st_coded) ∈ dir_two_files.files ∧
    st_generic ≠ st_coded := by
  decide

/-- C5 amended: `get_available_languages` probes its filename patterns
in priority order, so a present code-prefixed store file is always the
one selected; `get_connection`, by contrast, accepts the first
directory entry in enumeration order whose name matches any accepted
pattern, so enumeration order — not pattern priority — decides there.
In both, at most one store file per language directory is used (the
selection result is a single optional value). -/
theorem c5_store_file_selection :
    (∀ (code : String) (files : List (String × Store)),
      files.any (fun f => f.1 == code ++ "_dict.db") = true →
      Db.select_db_file code files = some (code ++ "_dict.db")) ∧
    (∀ (nm : String) (st : Store) (rest : List (String × Store))
        (pats : List String),
      pats.any (fun p => p == nm) = true →
      Db.find_file_in_dir ((nm, st) :: rest) pats = some st) := by
  constructor
  · intro code files h
    simp [Db.select_db_file, Db.avail_patterns, List.find?_cons, h]
  · intro nm st rest pats h
    simp [Db.find_file_in_dir, List.find?_cons, h]

/-- Witness for C5 (amended) on the two-file directory. -/
theorem c5_store_file_selection_witness :
    Db.select_db_file "de" dir_two_files.files = some "de_dict.db" ∧
    Db.find_file_in_dir dir_two_files.files ["dictionary.db"] =
      some st_generic :=
  ⟨c5_store_file_selection.1 "de" dir_two_files.files (by decide),
   c5_store_file_selection.2 "dictionary.db" st_generic
     [("de_dict.db", st_coded)] ["dictionary.db"] (by decide)⟩

/-- C7: when neither headword lookup matches and every forms-table row
matching the query (exactly on `form`, or on `normalized_form` against
the folded word) fails the error-tag filter, the whole resolution
returns the empty list — an error-tagged row is never used as a
resolution path, in either forms stage, even if it is the only matching
row. -/
theorem c7_error_tag_exclusion :
    ∀ (conn : Store) (w : String),
      Db.headword_lookup conn w = none →
      (∀ r ∈ conn.forms.getD [],
        (r.form = w ∨ r.normalized_form = some (normalize_word w)) →
        Db.form_tags_ok r.tags = false) →
      Db.search_conn conn w = .ok [] := by
  intro conn w hhw herr
  have hfe : Db.query_form_exact conn w = none := by
    unfold Db.query_form_exact
    cases hf : conn.forms with
    | none => rfl
    | some rows =>
      rw [hf] at herr
      simp only [Option.getD] at herr
      have hnone :
          rows.find? (fun r => r.form == w && Db.form_tags_ok r.tags) =
            none := by
        rw [List.find?_eq_none]
        intro r hr
        by_cases hfw : r.form = w
        · have := herr r hr (Or.inl hfw)
          simp [this]
        · simp [hfw]
      simp [hnone]
  have hfn : Db.query_form_norm conn (normalize_word w) = none := by
    unfold Db.query_form_norm
    cases hf : conn.forms with
    | none => rfl
    | some rows =>
      rw [hf] at herr
      simp only [Option.getD] at herr
      have hnone :
          rows.find? (fun r =>
            r.normalized_form == some (normalize_word w) &&
              Db.form_tags_ok r.tags) = none := by
        rw [List.find?_eq_none]
        intro r hr
        by_cases hfw : r.normalized_form = some (normalize_word w)
        · have := herr r hr (Or.inr hfw)
          simp [hfw, this]
        · simp [hfw]
      simp [hnone]
  unfold Db.search_conn Db.forms_lookup
  simp [hhw, hfe, hfn]

/-- Witness for C7: the only row matching `xlief` is error-tagged, and
resolution returns the empty list. -/
theorem c7_error_tag_exclusion_witness :
    Db.search_conn st_errtag "xlief" = .ok [] :=
  c7_error_tag_exclusion st_errtag "xlief" (by decide) (by decide)

theorem search_conn_of_headword {st : Store} {w : String} {id : Int}
    (hid : Db.headword_lookup st w = some id) :
    Db.search_conn st w = Db.fetch_entry st id w false [] := by
  unfold Db.search_conn
  simp [hid]

theorem search_conn_of_forms {st : Store} {w : String} {fid : Int}
    {ftags : Option String}
    (hhw : Db.headword_lookup st w = none)
    (hfl : Db.forms_lookup st w (normalize_word w) = some (fid, ftags)) :
    Db.search_conn st w =
      Db.fetch_entry st fid w true
        (match ftags with | some t => [t] | none => []) := by
  unfold Db.search_conn
  cases ftags <;> simp [hhw, hfl]

theorem fetch_entry_not_via_forms {st : Store} {id : Int} {w : String}
    {entries : List DictionaryEntry}
    (h : Db.fetch_entry st id w false [] = .ok entries) :
    ∀ e ∈ entries, e.inflections = none ∧ e.entry_id = some (toString id) := by
  intro e he
  unfold Db.fetch_entry at h
  cases hd : st.dictionary with
  | none => rw [hd] at h; cases h
  | some drows =>
    cases hs : st.senses with
    | none => rw [hd, hs] at h; cases h
    | some srows =>
      rw [hd, hs] at h
      simp only [Except.ok.injEq] at h
      rw [← h] at he
      obtain ⟨r, _, hr⟩ := List.mem_map.mp (mem_dedup_by_text he)
      rw [← hr]
      simp

theorem fetch_entry_via_forms {st : Store} {id : Int} {w : String}
    {tags : List String} {entries : List DictionaryEntry}
    (h : Db.fetch_entry st id w true tags = .ok entries) :
    ∀ e ∈ entries,
      (e.inflections ≠ none ↔ e.text ≠ w) ∧
      (∀ infl, e.inflections = some infl →
        ∃ t, infl = [⟨w, t, none⟩]) := by
  intro e he
  unfold Db.fetch_entry at h
  cases hd : st.dictionary with
  | none => rw [hd] at h; cases h
  | some drows =>
    cases hs : st.senses with
    | none => rw [hd, hs] at h; cases h
    | some srows =>
      rw [hd, hs] at h
      simp only [Except.ok.injEq] at h
      rw [← h] at he
      obtain ⟨r, _, hr⟩ := List.mem_map.mp (mem_dedup_by_text he)
      rw [← hr]
      by_cases hrw : r.word = w
      · simp [hrw]
      · refine ⟨by simp [hrw], ?_⟩
        intro infl hinfl
        simp only [bne_iff_ne, ne_eq, hrw, not_false_eq_true,
          Bool.true_and, if_true, Option.some.injEq] at hinfl
        exact ⟨_, hinfl.symm⟩

/-- C1: with an open store whose headword table contains a row matching
the queried word (exactly on the stored text, or on the normalized
column against the folded word), resolution takes the headword path:
some headword id is found, the lookup returns entries that carry no
inflection block and are identified by that headword id, and the
inflected-forms table is never consulted — replacing it by any other
table leaves the result unchanged. -/
theorem c1_headword_precedence :
    ∀ (fs : FS) (w lang : String) (conn : Store) (rows : List DictRow),
      Db.get_connection fs lang = .ok conn →
      conn.dictionary = some rows →
      conn.senses.isSome = true →
      (∃ r ∈ rows, r.word = w ∨
        r.normalized_word = some (normalize_word w)) →
      ∃ id entries,
        Db.headword_lookup conn w = some id ∧
        Db.search_dictionary fs w lang = .ok entries ∧
        (∀ e ∈ entries, e.inflections = none ∧
          e.entry_id = some (toString id)) ∧
        (∀ forms2 : Option (List FormRow),
          Db.search_conn { conn with forms := forms2 } w = .ok entries) := by
  intro fs w lang conn rows hconn hd hsen hex
  obtain ⟨r, hr, hor⟩ := hex
  have hsome : (Db.headword_lookup conn w).isSome = true := by
    unfold Db.headword_lookup Db.query_headword_exact Db.query_headword_norm
    rw [hd]
    simp only [Option.some_bind]
    cases hfind : rows.find? (fun r => r.word == w) with
    | some r0 => rfl
    | none =>
      have hnorm :
          (rows.find? (fun r =>
            r.normalized_word == some (normalize_word w))).isSome = true := by
        rw [List.find?_isSome]
        refine ⟨r, hr, ?_⟩
        rcases hor with h1 | h2
        · rw [List.find?_eq_none] at hfind
          exact absurd (by simp [h1]) (hfind r hr)
        · simp [h2]
      simpa using hnorm
  obtain ⟨id, hid⟩ := Option.isSome_iff_exists.mp hsome
  obtain ⟨srows, hsen'⟩ := Option.isSome_iff_exists.mp hsen
  have hfetch : ∃ entries,
      Db.fetch_entry conn id w false [] = .ok entries := by
    unfold Db.fetch_entry
    rw [hd, hsen']
    exact ⟨_, rfl⟩
  obtain ⟨entries, hE⟩ := hfetch
  refine ⟨id, entries, hid, ?_, fetch_entry_not_via_forms hE, ?_⟩
  · have h1 : Db.search_dictionary fs w lang = Db.search_conn conn w := by
      unfold Db.search_dictionary
      rw [hconn]
      rfl
    rw [h1, search_conn_of_headword hid]
    exact hE
  · intro forms2
    have hid2 : Db.headword_lookup { conn with forms := forms2 } w =
        some id := hid
    rw [search_conn_of_headword hid2]
    have : Db.fetch_entry { conn with forms := forms2 } id w false [] =
        Db.fetch_entry conn id w false [] := rfl
    rw [this]
    exact hE

/-- Witness for C1: the store holding both a headword `lauf` and an
inflected form `lauf` owned by `laufen` resolves `lauf` to the `lauf`
headword with no inflection block. -/
theorem c1_headword_precedence_witness :
    Db.search_dictionary fs_lauf "lauf" "de" = .ok [lauf_entry] ∧
    lauf_entry.inflections = none := by
  obtain ⟨id, entries, hid, hE, hprops, hinv⟩ :=
    c1_headword_precedence fs_lauf "lauf" "de" st_lauf _ (by decide) rfl rfl
      ⟨sample_row 1 "lauf" (some "lauf") (some "noun"), by decide, Or.inl rfl⟩
  have hval : Db.search_dictionary fs_lauf "lauf" "de" = .ok [lauf_entry] := by
    decide
  have hents : entries = [lauf_entry] := Except.ok.inj (hE.symm.trans hval)
  refine ⟨hval, ?_⟩
  exact (hprops lauf_entry (by rw [hents]; exact List.mem_singleton_self _)).1

/-- C2 counterexample: the headword `Haus` is matched directly for the
query `haus` (via the normalized column), the resolved surface text
differs from the queried word, and yet no inflection block is attached
— refuting "attached if and only if the text differs". -/
theorem c2_inflection_counterexample :
    Db.search_conn st_haus "haus" = .ok [haus_entry] ∧
    haus_entry.text ≠ "haus" ∧
    haus_entry.inflections = none := by
  decide

/-- C2 amended: an `Inflection` block is attached to a returned entry
if and only if the resolution path went through the forms table (no
headword lookup matched and a forms lookup did) AND the resolved
headword's surface text differs from the queried word; when attached it
is exactly one record whose `form` is the queried word and whose
`normalized_form` is absent.  A directly matched headword never carries
inflection metadata. -/
theorem c2_inflection_iff :
    ∀ (conn : Store) (w : String) (entries : List DictionaryEntry),
      Db.search_conn conn w = .ok entries →
      ∀ e ∈ entries,
        (e.inflections ≠ none ↔
          (Db.headword_lookup conn w = none ∧
           (Db.forms_lookup conn w (normalize_word w)).isSome = true ∧
           e.text ≠ w)) ∧
        (∀ infl, e.inflections = some infl →
          ∃ t, infl = [⟨w, t, none⟩]) := by
  intro conn w entries hok e he
  cases hhw : Db.headword_lookup conn w with
  | some id =>
    rw [search_conn_of_headword hhw] at hok
    have hprops := fetch_entry_not_via_forms hok e he
    refine ⟨?_, ?_⟩
    · rw [hprops.1]
      simp [hhw]
    · intro infl hinfl
      rw [hprops.1] at hinfl
      exact Option.noConfusion hinfl
  | none =>
    cases hfl : Db.forms_lookup conn w (normalize_word w) with
    | none =>
      have hempty : Db.search_conn conn w = .ok [] := by
        unfold Db.search_conn
        simp [hhw, hfl]
      rw [hempty] at hok
      have : entries = [] := (Except.ok.inj hok).symm
      rw [this] at he
      cases he
    | some pr =>
      obtain ⟨fid, ftags⟩ := pr
      rw [search_conn_of_forms hhw hfl] at hok
      have hprops := fetch_entry_via_forms hok e he
      refine ⟨?_, hprops.2⟩
      rw [hprops.1]
      simp [hhw, hfl]

/-- Witness for C2 (amended): the forms-resolved entry for `lief` does
carry an inflection block. -/
theorem c2_inflection_iff_witness : lief_entry.inflections ≠ none :=
  ((c2_inflection_iff st_lauf "lief" [lief_entry] (by decide) lief_entry
    (List.mem_singleton_self _)).1).mpr (by decide)

open Db

theorem char_list_le_total :
    ∀ a b : List Char, char_list_le a b = true ∨ char_list_le b a = true
  | [], _ => Or.inl rfl
  | _ :: _, [] => Or.inr rfl
  | a :: as, b :: bs => by
    by_cases hab : a = b
    · subst hab
      simp only [char_list_le, if_pos rfl]
      exact char_list_le_total as bs
    · simp only [char_list_le, if_neg hab, if_neg (Ne.symm hab)]
      rcases lt_or_gt_of_ne hab with h | h
      · exact Or.inl (decide_eq_true h)
      · exact Or.inr (decide_eq_true h)

theorem char_list_le_trans :
    ∀ a b c : List Char, char_list_le a b = true →
      char_list_le b c = true → char_list_le a c = true
  | [], _, _, _, _ => rfl
  | _ :: _, [], _, h, _ => by simp [char_list_le] at h
  | _ :: _, _ :: _, [], _, h => by simp [char_list_le] at h
  | x :: xs, y :: ys, z :: zs, h1, h2 => by
    simp only [char_list_le] at h1 h2 ⊢
    by_cases hxy : x = y
    · subst hxy
      rw [if_pos rfl] at h1
      by_cases hyz : x = z
      · subst hyz
        rw [if_pos rfl] at h2
        rw [if_pos rfl]
        exact char_list_le_trans xs ys zs h1 h2
      · rw [if_neg hyz] at h2
        rw [if_neg hyz]
        exact h2
    · rw [if_neg hxy] at h1
      have hlt1 : x < y := of_decide_eq_true h1
      by_cases hyz : y = z
      · subst hyz
        rw [if_neg hxy]
        exact decide_eq_true hlt1
      · rw [if_neg hyz] at h2
        have hlt2 : y < z := of_decide_eq_true h2
        have hlt : x < z := lt_trans hlt1 hlt2
        rw [if_neg (ne_of_lt hlt)]
        exact decide_eq_true hlt

theorem word_le_total (a b : String × Option String) :
    word_le a b = true ∨ word_le b a = true :=
  char_list_le_total a.1.data b.1.data

theorem word_le_trans (a b c : String × Option String)
    (h1 : word_le a b = true) (h2 : word_le b c = true) :
    word_le a c = true :=
  char_list_le_trans a.1.data b.1.data c.1.data h1 h2

theorem mem_insert_sorted {le : α → α → Bool} {x a : α} :
    ∀ {l : List α}, a ∈ insert_sorted le x l ↔ a = x ∨ a ∈ l := by
  intro l
  induction l with
  | nil => simp [insert_sorted]
  | cons y ys ih =>
    simp only [insert_sorted]
    by_cases h : le x y = true
    · rw [if_pos h]
      simp [List.mem_cons]
    · rw [if_neg h]
      simp only [List.mem_cons, ih]
      tauto

theorem insert_sorted_perm (le : α → α → Bool) (x : α) :
    ∀ l : List α, List.Perm (insert_sorted le x l) (x :: l)
  | [] => List.Perm.refl _
  | y :: ys => by
    simp only [insert_sorted]
    by_cases h : le x y = true
    · rw [if_pos h]
    · rw [if_neg h]
      exact ((insert_sorted_perm le x ys).cons y).trans (List.Perm.swap x y ys)

theorem sort_by_perm (le : α → α → Bool) :
    ∀ l : List α, List.Perm (sort_by le l) l
  | [] => List.Perm.refl _
  | x :: xs =>
    (insert_sorted_perm le x (sort_by le xs)).trans
      ((sort_by_perm le xs).cons x)

theorem pairwise_insert_sorted {le : α → α → Bool}
    (htotal : ∀ a b, le a b = true ∨ le b a = true)
    (htrans : ∀ a b c, le a b = true → le b c = true → le a c = true)
    {x : α} : ∀ {l : List α},
      List.Pairwise (fun a b => le a b = true) l →
      List.Pairwise (fun a b => le a b = true) (insert_sorted le x l) := by
  intro l
  induction l with
  | nil =>
    intro _
    simp [insert_sorted]
  | cons z zs ih =>
    intro h
    obtain ⟨hz, hzs⟩ := List.pairwise_cons.mp h
    simp only [insert_sorted]
    by_cases hxz : le x z = true
    · rw [if_pos hxz]
      refine List.pairwise_cons.mpr ⟨?_, h⟩
      intro y hy
      rcases List.mem_cons.mp hy with rfl | hy'
      · exact hxz
      · exact htrans x z y hxz (hz y hy')
    · rw [if_neg hxz]
      refine List.pairwise_cons.mpr ⟨?_, ih hzs⟩
      intro y hy
      rcases mem_insert_sorted.mp hy with rfl | hy'
      · rcases htotal y z with h1 | h1
        · exact absurd h1 hxz
        · exact h1
      · exact hz y hy'

theorem pairwise_sort_by {le : α → α → Bool}
    (htotal : ∀ a b, le a b = true ∨ le b a = true)
    (htrans : ∀ a b c, le a b = true → le b c = true → le a c = true) :
    ∀ l : List α, List.Pairwise (fun a b => le a b = true) (sort_by le l)
  | [] => List.Pairwise.nil
  | _ :: xs =>
    pairwise_insert_sorted htotal htrans (pairwise_sort_by htotal htrans xs)

theorem like_match_no_wildcard :
    ∀ {ps s : List Char}, (∀ c ∈ ps, c ≠ '%' ∧ c ≠ '_') →
      like_match (ps ++ ['%']) s = true →
      List.IsPrefix (ps.map like_fold) (s.map like_fold) := by
  intro ps
  induction ps with
  | nil =>
    intro s _ _
    simp
  | cons c cs ih =>
    intro s hw h
    obtain ⟨h1, h2⟩ := hw c (List.mem_cons_self c cs)
    rw [List.cons_append] at h
    cases s with
    | nil =>
      simp only [like_match, if_neg h1, if_neg h2] at h
      exact Bool.noConfusion h
    | cons d ds =>
      simp only [like_match, if_neg h1, if_neg h2, Bool.and_eq_true,
        beq_iff_eq] at h
      obtain ⟨hfold, hrest⟩ := h
      obtain ⟨t, ht⟩ := ih (fun y hy => hw y (List.mem_cons_of_mem c hy)) hrest
      exact ⟨t, by simp [hfold, ht]⟩

/-- C4 counterexample: the suggestion query for the prefix `a` returns
`Ab` (which does not start with `a` under case-sensitive comparison,
because SQLite `LIKE` folds ASCII case) and returns the word `ab`
twice (because `DISTINCT word, pos` de-duplicates pairs, not headword
texts). -/
theorem c4_suggestions_counterexample :
    Db.search_suggestions fs_sugg "a" "de" 10 = .ok sugg_result ∧
    ("Ab", some "noun") ∈ sugg_result ∧
    ¬ List.IsPrefix "a".data "Ab".data ∧
    (sugg_result.filter (fun p => p.1 == "ab")).length = 2 := by
  decide

/-- C4 amended: `suggest(prefix, l, limit)` returns at most `limit`
rows, sorted ascending under the byte-wise collation, de-duplicated as
`(word, pos)` pairs (not by word alone), with every returned word
matching `prefix ++ "%"` under SQLite `LIKE` — which folds ASCII case,
so for a wildcard-free prefix every returned word starts with the
prefix only up to ASCII case. -/
theorem c4_suggestions_amended :
    ∀ (fs : FS) (pre lang : String) (limit : Nat)
      (r : List (String × Option String)),
      Db.search_suggestions fs pre lang limit = .ok r →
      r.length ≤ limit ∧
      List.Pairwise (fun a b => word_le a b = true) r ∧
      (∀ p ∈ r, sql_like (pre ++ "%") p.1 = true) ∧
      r.Nodup ∧
      ((∀ c ∈ pre.data, c ≠ '%' ∧ c ≠ '_') →
        ∀ p ∈ r, List.IsPrefix (pre.data.map like_fold)
          (p.1.data.map like_fold)) := by
  intro fs pre lang limit r hok
  cases hc : Db.get_connection fs lang with
  | error e =>
    have hbad : Db.search_suggestions fs pre lang limit = .error e := by
      unfold Db.search_suggestions
      rw [hc]
      rfl
    rw [hbad] at hok
    cases hok
  | ok conn =>
    have h1 : Db.search_suggestions fs pre lang limit =
        Db.search_suggestions_conn conn pre limit := by
      unfold Db.search_suggestions
      rw [hc]
      rfl
    rw [h1] at hok
    unfold Db.search_suggestions_conn at hok
    cases hdict : conn.dictionary with
    | none =>
      rw [hdict] at hok
      cases hok
    | some rows =>
      rw [hdict] at hok
      have hr : r = (sort_by word_le
          (((rows.filter (fun r => sql_like (pre ++ "%") r.word)).map
            (fun r => (r.word, r.pos))).dedup)).take limit :=
        (Except.ok.inj hok).symm
      subst hr
      have hmem : ∀ p, p ∈ (sort_by word_le
          (((rows.filter (fun r => sql_like (pre ++ "%") r.word)).map
            (fun r => (r.word, r.pos))).dedup)).take limit →
          ∃ rw ∈ rows.filter (fun r => sql_like (pre ++ "%") r.word),
            (rw.word, rw.pos) = p := by
        intro p hp
        have h2 := ((sort_by_perm word_le _).mem_iff).mp
          (List.mem_of_mem_take hp)
        exact List.mem_map.mp (List.mem_dedup.mp h2)
      refine ⟨List.length_take_le _ _, ?_, ?_, ?_, ?_⟩
      · exact (pairwise_sort_by word_le_total word_le_trans _).sublist
          (List.take_sublist _ _)
      · intro p hp
        obtain ⟨rw, hrw, hpe⟩ := hmem p hp
        have hl : sql_like (pre ++ "%") rw.word = true :=
          List.of_mem_filter (p := fun (q : DictRow) => sql_like (pre ++ "%") q.word) hrw
        rw [← hpe]
        exact hl
      · refine List.Nodup.sublist (List.take_sublist _ _) ?_
        exact ((sort_by_perm word_le _).nodup_iff).mpr (List.nodup_dedup _)
      · intro hwild p hp
        obtain ⟨rw, hrw, hpe⟩ := hmem p hp
        have hlike : sql_like (pre ++ "%") p.1 = true := by
          have hl : sql_like (pre ++ "%") rw.word = true :=
            List.of_mem_filter (p := fun (q : DictRow) => sql_like (pre ++ "%") q.word) hrw
          rw [← hpe]
          exact hl
        unfold sql_like at hlike
        rw [String.data_append] at hlike
        exact like_match_no_wildcard hwild hlike

/-- Witness for C4 (amended) on the mixed-case store. -/
theorem c4_suggestions_amended_witness :
    sugg_result.length ≤ 10 ∧
    (∀ p ∈ sugg_result, sql_like "a%" p.1 = true) := by
  have h := c4_suggestions_amended fs_sugg "a" "de" 10 sugg_result (by decide)
  exact ⟨h.1, h.2.2.1⟩

end Lumina
